import Mathlib

set_option maxRecDepth 8000
set_option maxHeartbeats 1000000

/-! # Shallow embedding of extract_impl_symbols.py

This file embeds the SCIP symbol-collision extraction script
(src/extract_impl_symbols.py) as Lean definitions: character-list
primitives model the Python substring tests, an inductive `Json` models
the parsed document graph, and the two-pass algorithm (symbol selector,
occurrence correlator) together with the CLI driver loop is translated
function by function.  Theorems at the end settle the specification
claims.  The Python standard-library JSON parser is abstracted as a
function argument `parseJson : String → Except String Json` (the error
component is the exception text interpolated into the message); the
filesystem is modelled by the inductive `FS`. -/

/-- Tests whether the second character list is an initial segment of the
first (Python str.startswith, on character lists). -/
def startsWithL : List Char → List Char → Bool
  | _, [] => true
  | [], _ :: _ => false
  | a :: s, b :: p => a == b && startsWithL s p

/-- Tests whether the second character list occurs contiguously inside the
first (Python substring membership `in`, on character lists). -/
def containsL : List Char → List Char → Bool
  | [], p => startsWithL [] p
  | a :: t, p => startsWithL (a :: t) p || containsL t p

/-- Python `pat in s` (substring containment). -/
def strContains (s pat : String) : Bool := containsL s.data pat.data

/-- Python `s.startswith(pat)`. -/
def strStartsWith (s pat : String) : Bool := startsWithL s.data pat.data

/-- Python `s.endswith(pat)`. -/
def strEndsWith (s pat : String) : Bool :=
  startsWithL s.data.reverse pat.data.reverse

/-- Python `s.lower()` (modelled with `Char.toLower`, which covers the
ASCII letters appearing in SCIP symbol identifiers). -/
def strLower (s : String) : String := String.mk (s.data.map Char.toLower)

/-- Python `f.read(n)` on a text-mode file: the first `n` characters. -/
def strTake (s : String) (n : Nat) : String := String.mk (s.data.take n)

/-- Splits a character list at every newline (the pieces, in order,
without the separators). -/
def splitNl : List Char → List String
  | [] => [""]
  | c :: t =>
    let r := splitNl t
    if c == '\n' then "" :: r
    else
      match r with
      | [] => [String.mk [c]]
      | h :: rt => String.mk (c :: h.data) :: rt

/-- Splits file content into lines, as iterating a Python text file does
(the trailing newline kept by Python never affects any substring test
performed by the script, so lines are modelled without it). -/
def toLines (s : String) : List String := splitNl s.data

/-- Equality of Except values is decidable componentwise. -/
instance exceptDecEq {ε α : Type} [DecidableEq ε] [DecidableEq α] :
    DecidableEq (Except ε α) := fun a b =>
  match a, b with
  | .error e₁, .error e₂ =>
    if h : e₁ = e₂ then isTrue (by rw [h])
    else isFalse (fun c => h (Except.error.inj c))
  | .error e₁, .ok a₂ => isFalse (fun c => Except.noConfusion c)
  | .ok a₁, .error e₂ => isFalse (fun c => Except.noConfusion c)
  | .ok a₁, .ok a₂ =>
    if h : a₁ = a₂ then isTrue (by rw [h])
    else isFalse (fun c => h (Except.ok.inj c))

/-- Parsed JSON values, as produced by json.load.  Object fields model a
Python dict (keys unique). -/
inductive Json where
  | jnull
  | jbool (b : Bool)
  | jnum (n : Int)
  | jstr (s : String)
  | jarr (elems : List Json)
  | jobj (fields : List (String × Json))

/-- Python type name of a parsed JSON value, as interpolated by
`type(data).__name__`. -/
def typeName : Json → String
  | .jnull => "NoneType"
  | .jbool _ => "bool"
  | .jnum _ => "int"
  | .jstr _ => "str"
  | .jarr _ => "list"
  | .jobj _ => "dict"

/-- Exceptions the script can raise past its try-block (the selector loop
on lines 77-90 runs outside any handler). -/
inductive PyExn where
  | typeError
  | attributeError
deriving DecidableEq

/-- Python iteration `for x in v` over a parsed JSON value: lists yield
their elements, strings yield one-character strings, dicts yield their
keys, and every other value raises TypeError. -/
def pyIter : Json → Except PyExn (List Json)
  | .jarr xs => .ok xs
  | .jstr s => .ok (s.data.map (fun c => Json.jstr (String.mk [c])))
  | .jobj fields => .ok (fields.map (fun kv => Json.jstr kv.1))
  | _ => .error .typeError

/-- Python `d.get(k, default)` on a dict value. -/
def dictGet (fields : List (String × Json)) (k : String) (d : Json) : Json :=
  match fields with
  | [] => d
  | (k', v) :: t => if k' == k then v else dictGet t k d

/-- Python `k in d` on a dict value. -/
def dictHasKey (fields : List (String × Json)) (k : String) : Bool :=
  fields.any (fun kv => kv.1 == k)

/-- Line 83: `any(p in s.lower() for p in patterns)` — the pattern is used
verbatim, the identifier is lowercased. -/
def patternMatches (patterns : List String) (s : String) : Bool :=
  patterns.any (fun p => strContains (strLower s) p)

/-- Lines 82-89: the filter predicate applied to the value of
`sym.get('symbol', '')`.  Mirrors Python evaluation order: with an empty
pattern list, `any` yields False without ever evaluating `s.lower()`, so
the conjunction short-circuits and no exception is raised even for a
non-string value; with a non-empty pattern list a non-string value raises
AttributeError at `s.lower()`.  Returns the identifier when it survives
every predicate. -/
def passFilter (patterns : List String) (functionsOnly : Bool) (v : Json) :
    Except PyExn (Option String) :=
  match patterns with
  | [] => .ok none
  | _ :: _ =>
    match v with
    | .jstr s =>
      if patternMatches patterns s && strContains s "#" then
        if strStartsWith s "local " || strContains s "tests/" ||
            strContains s "/core " then
          .ok none
        else if functionsOnly && !strEndsWith s "()." then
          .ok none
        else
          .ok (some s)
      else
        .ok none
    | _ => .error .attributeError

/-- Python set insertion into `matching_symbols`, modelled as an
insertion-ordered duplicate-free list. -/
def setInsert (l : List String) (s : String) : List String :=
  if l.contains s then l else l ++ [s]

/-- Lines 80-90: processing of one element of a `symbols` list.  A
non-dict element raises AttributeError at `sym.get`. -/
def selectSym (patterns : List String) (functionsOnly : Bool)
    (acc : List String) (symJ : Json) : Except PyExn (List String) :=
  match symJ with
  | .jobj sfs =>
    match passFilter patterns functionsOnly (dictGet sfs "symbol" (Json.jstr "")) with
    | .error e => .error e
    | .ok none => .ok acc
    | .ok (some s) => .ok (setInsert acc s)
  | _ => .error .attributeError

/-- Lines 79-90: processing of one element of the `documents` list.  A
non-dict document raises AttributeError at `doc.get`. -/
def selectDoc (patterns : List String) (functionsOnly : Bool)
    (acc : List String) (docJ : Json) : Except PyExn (List String) :=
  match docJ with
  | .jobj dfs =>
    match pyIter (dictGet dfs "symbols" (Json.jarr [])) with
    | .error e => .error e
    | .ok syms => syms.foldlM (selectSym patterns functionsOnly) acc
  | _ => .error .attributeError

/-- Lines 77-90: the first pass (Symbol Selector) over the value of
`data.get('documents', [])`, producing the Candidate Set. -/
def selector (patterns : List String) (functionsOnly : Bool)
    (docsVal : Json) : Except PyExn (List String) :=
  match pyIter docsVal with
  | .error e => .error e
  | .ok docs => docs.foldlM (selectDoc patterns functionsOnly) []

/-- The Occurrence Map: `symbol_lines`, a defaultdict from identifier to
the list of matching line numbers, modelled as an assoc list in
first-append key order. -/
abbrev OccMap := List (String × List Nat)

/-- `symbol_lines[symbol].append(line_num)` including defaultdict key
creation. -/
def appendOcc : OccMap → String → Nat → OccMap
  | [], s, n => [(s, [n])]
  | (k, v) :: t, s, n =>
    if k == s then (k, v ++ [n]) :: t else (k, v) :: appendOcc t s n

/-- Reads the line list recorded for an identifier (empty when the
identifier is not a key). -/
def getOcc (m : OccMap) (s : String) : List Nat :=
  match m with
  | [] => []
  | (k, v) :: t => if k == s then v else getOcc t s

/-- Tests whether an identifier is a key of the Occurrence Map. -/
def hasKey (m : OccMap) (s : String) : Bool :=
  m.any (fun e => e.1 == s)

/-- Line 96: the cheap pre-filter testing the generic symbol-field marker. -/
def lineHasSymbolField (line : String) : Bool := strContains line "\"symbol\":"

/-- Line 99: the exact quoted serialized form of an identifier. -/
def quoted (s : String) : String := "\"" ++ s ++ "\""

/-- Lines 96-100: processing of one raw-text line against every
candidate. -/
def correlateLine (cands : List String) (n : Nat) (line : String)
    (m : OccMap) : OccMap :=
  if lineHasSymbolField line then
    cands.foldl
      (fun m' s => if strContains line (quoted s) then appendOcc m' s n else m')
      m
  else m

/-- Lines 94-100: sequential scan of the raw lines starting at line
number `n`. -/
def correlateFrom (cands : List String) (n : Nat) (lines : List String)
    (m : OccMap) : OccMap :=
  match lines with
  | [] => m
  | l :: t => correlateFrom cands (n + 1) t (correlateLine cands n l m)

/-- Lines 92-100: the second pass (Occurrence Correlator), 1-based line
numbering. -/
def correlate (cands : List String) (lines : List String) : OccMap :=
  correlateFrom cands 1 lines []

/-- Whether one line both passes the pre-filter and contains the quoted
identifier — the exact condition under which a line number is recorded
for that identifier. -/
def lineMatches (s : String) (line : String) : Bool :=
  lineHasSymbolField line && strContains line (quoted s)

/-- Specification view of the occurrence list of one identifier: the numbers
(counted from `n`) of the lines that match it, in scan order. -/
def occLinesFrom (s : String) (n : Nat) : List String → List Nat
  | [] => []
  | l :: t => (if lineMatches s l then [n] else []) ++ occLinesFrom s (n + 1) t

/-- Filesystem view of one path: absent, existing but unreadable
(stat succeeds, open raises PermissionError), or readable with the given
text content. -/
inductive FS where
  | absent
  | unreadable (text : String)
  | readable (text : String)

/-- Line 32 error message. -/
def notFoundMsg (path : String) : String := "File not found: " ++ path

/-- Line 36 error message. -/
def emptyMsg (path : String) : String := "File is empty: " ++ path

/-- Line 66 error message. -/
def permissionMsg (path : String) : String := "Permission denied: " ++ path

/-- Lines 47-51 error message (the `WrongFormat:AnsiColor` kind, with the
guidance line naming the upstream conversion command). -/
def ansiMsg (path : String) : String :=
  "File contains ANSI escape codes (not valid JSON): " ++ path ++
  "\n  This looks like colored debug output, not JSON.\n  Try: scip print \x2d\x2djson <file.scip> > output.json"

/-- Lines 55-59 error message (the `WrongFormat:NativeDump` kind). -/
def goStructMsg (path : String) : String :=
  "File contains Go struct format (not valid JSON): " ++ path ++
  "\n  This looks like \x27scip print\x27 output without \x2d\x2djson flag.\n  Try: scip print \x2d\x2djson <file.scip> > output.json"

/-- Line 64 error message. -/
def invalidJsonMsg (path e : String) : String :=
  "Invalid JSON in " ++ path ++ ": " ++ e

/-- Line 75 error message. -/
def missingDocumentsMsg (path : String) : String :=
  "Missing \x27documents\x27 key in JSON (not a SCIP file?): " ++ path

/-- Line 72 error message. -/
def wrongTypeMsg (t path : String) : String :=
  "Expected JSON object, got " ++ t ++ ": " ++ path

/-- Line 28 default pattern list. -/
def defaultPatterns : List String := ["neg", "mul"]

/-- Lines 16-102: the whole function.  `parseJson` abstracts json.load;
returns the Python pair `(symbol_lines, error-or-None)`, or the uncaught
exception when the selector loop raises one. -/
def extract_impl_symbols (parseJson : String → Except String Json)
    (file : FS) (path : String) (patternsArg : Option (List String))
    (functionsOnly : Bool) :
    Except PyExn (Option OccMap × Option String) :=
  let patterns := patternsArg.getD defaultPatterns
  match file with
  | .absent => .ok (none, some (notFoundMsg path))
  | .unreadable text =>
    if text.length == 0 then .ok (none, some (emptyMsg path))
    else .ok (none, some (permissionMsg path))
  | .readable text =>
    if text.length == 0 then .ok (none, some (emptyMsg path))
    else if strContains (strTake text 100) "\x1b[" ||
        strContains (strTake text 100) "[0m" then
      .ok (none, some (ansiMsg path))
    else if strStartsWith (strTake text 100) "&scip." then
      .ok (none, some (goStructMsg path))
    else
      match parseJson text with
      | .error e => .ok (none, some (invalidJsonMsg path e))
      | .ok data =>
        match data with
        | .jobj fields =>
          if !dictHasKey fields "documents" then
            .ok (none, some (missingDocumentsMsg path))
          else
            match selector patterns functionsOnly
                (dictGet fields "documents" (Json.jarr [])) with
            | .error e => .error e
            | .ok cands => .ok (some (correlate cands (toLines text)), none)
        | _ => .ok (none, some (wrongTypeMsg (typeName data) path))

/-- Line 185 classification threshold on an occurrence count. -/
def classifyCount (n : Nat) : Bool := decide (2 < n)

/-- Line 185: `len(lines) > 2` — collision classification of one
occurrence list of one identifier. -/
def isCollision (lines : List Nat) : Bool := classifyCount lines.length

/-- Line 187: `lines[1:]` — the positions beyond the first, reported as
additional collision evidence. -/
def collisionEvidence (lines : List Nat) : List Nat := lines.drop 1

/-- Helper for line 187: the comma-separated join of the evidence positions. -/
def joinComma : List Nat → String
  | [] => ""
  | [n] => Nat.repr n
  | n :: t => Nat.repr n ++ ", " ++ joinComma t

/-- Lines 183-189: the reported line for one identifier (`lines[0]`
modelled with a default, unreachable for keys of a real Occurrence
Map). -/
def reportSymbol (s : String) (lines : List Nat) : String :=
  if isCollision lines then
    "L" ++ Nat.repr (lines.headD 0) ++ ": " ++ s ++
      "  (DUPLICATE! also at L" ++ joinComma (collisionEvidence lines) ++ ")"
  else
    "L" ++ Nat.repr (lines.headD 0) ++ ": " ++ s

/-- Line 157: `args.patterns if args.patterns else ['neg', 'mul']`
(Python truthiness: both None and an empty list fall back). -/
def resolvePatterns (cli : Option (List String)) : List String :=
  match cli with
  | none => defaultPatterns
  | some ps => if ps.isEmpty then defaultPatterns else ps

/-- Lines 162-192: the per-file loop of main.  The accumulator carries
the exit code and, per processed file, the path with its error message
(if any).  An uncaught exception from the core aborts the whole run, as
in Python. -/
def processFiles (parseJson : String → Except String Json)
    (world : String → FS) (patterns : List String) (functionsOnly : Bool)
    (acc : Nat × List (String × Option String)) (files : List String) :
    Except PyExn (Nat × List (String × Option String)) :=
  match files with
  | [] => .ok acc
  | f :: rest =>
    match extract_impl_symbols parseJson (world f) f (some patterns) functionsOnly with
    | .error e => .error e
    | .ok (_, some msg) =>
      processFiles parseJson world patterns functionsOnly
        (1, acc.2 ++ [(f, some msg)]) rest
    | .ok (_, none) =>
      processFiles parseJson world patterns functionsOnly
        (acc.1, acc.2 ++ [(f, none)]) rest

/-- Lines 155-194: main, from parsed CLI arguments to the exit code and
per-file outcomes. -/
def mainRun (parseJson : String → Except String Json) (world : String → FS)
    (cliPatterns : Option (List String)) (allSymbols : Bool)
    (files : List String) :
    Except PyExn (Nat × List (String × Option String)) :=
  processFiles parseJson world (resolvePatterns cliPatterns) (!allSymbols)
    (0, []) files

/-- The active filter predicate conjunction of the Symbol Selector
(spec section 4.1 / lines 82-89): case-insensitive-identifier pattern
match, member-scope marker, the three exclusions, and the function-suffix
rule when configured. -/
def filterPred (patterns : List String) (functionsOnly : Bool) (s : String) : Prop :=
  patternMatches patterns s = true ∧ strContains s "#" = true ∧
  strStartsWith s "local " = false ∧ strContains s "tests/" = false ∧
  strContains s "/core " = false ∧
  (functionsOnly = true → strEndsWith s "()." = true)

/-- Builds the parsed form of a one-document SCIP index whose single
document carries the given symbol identifiers (used by concrete
instantiations of the abstract parser). -/
def sampleDoc (syms : List String) : Json :=
  Json.jobj [("documents", Json.jarr [Json.jobj
    [("symbols", Json.jarr (syms.map (fun s => Json.jobj [("symbol", Json.jstr s)])))]])]

/-- A parser that returns the same parsed value for every input text. -/
def constParse (j : Json) : String → Except String Json := fun _ => Except.ok j

/-! ## Basic string lemmas -/

theorem data_append (a b : String) : (a ++ b).data = a.data ++ b.data := by
  cases a; cases b; rfl

theorem str_ne_of_data_get (a b : String) (k : Nat)
    (h : a.data.get? k ≠ b.data.get? k) : a ≠ b := by
  intro e; exact h (by rw [e])

/-! ## Occurrence-map lemmas -/

theorem getOcc_appendOcc (m : OccMap) (s s' : String) (n : Nat) :
    getOcc (appendOcc m s n) s' =
      if s' = s then getOcc m s' ++ [n] else getOcc m s' := by
  induction m with
  | nil =>
    by_cases h : s' = s
    · simp [appendOcc, getOcc, h]
    · have e : (s == s') = false := by
        rw [beq_eq_false_iff_ne]; exact Ne.symm h
      simp [appendOcc, getOcc, e, h]
  | cons kv t ih =>
    obtain ⟨k, v⟩ := kv
    by_cases hk : k = s
    · by_cases h : s' = s
      · simp [appendOcc, getOcc, hk, h]
      · have e : (k == s') = false := by
          rw [hk, beq_eq_false_iff_ne]; exact Ne.symm h
        have hss : ¬ s = s' := fun e' => h e'.symm
        simp [appendOcc, getOcc, hk, e, h, hss]
    · have e0 : (k == s) = false := by rw [beq_eq_false_iff_ne]; exact hk
      by_cases h' : k = s'
      · have hss : ¬ s' = s := fun e => hk (h'.trans e)
        simp [appendOcc, getOcc, e0, h', hss]
      · have e1 : (k == s') = false := by rw [beq_eq_false_iff_ne]; exact h'
        simp [appendOcc, getOcc, e0, e1, ih]

theorem hasKey_appendOcc (m : OccMap) (s s' : String) (n : Nat) :
    hasKey (appendOcc m s n) s' = (hasKey m s' || s == s') := by
  induction m with
  | nil => simp [appendOcc, hasKey]
  | cons kv t ih =>
    obtain ⟨k, v⟩ := kv
    simp only [hasKey, List.any_cons] at ih ⊢
    by_cases hk : k = s
    · subst hk
      simp only [appendOcc, beq_self_eq_true, if_true, List.any_cons]
      cases hb : (k == s')
      · simp [hb]
      · simp [hb]
    · have e0 : (k == s) = false := by rw [beq_eq_false_iff_ne]; exact hk
      simp only [appendOcc, e0, Bool.false_eq_true, if_false, List.any_cons]
      rw [ih, Bool.or_assoc]

/-! ## Correlator characterization -/

theorem getOcc_foldl_line (line : String) (n : Nat) (s : String) :
    ∀ (c : List String) (m : OccMap), c.Nodup →
    getOcc (c.foldl
      (fun m' x => if strContains line (quoted x) then appendOcc m' x n else m') m) s =
    getOcc m s ++ (if s ∈ c ∧ strContains line (quoted s) = true then [n] else []) := by
  intro c
  induction c with
  | nil => intro m _; simp
  | cons x t ih =>
    intro m hnd
    have hx : x ∉ t := (List.nodup_cons.mp hnd).1
    have hnd' : t.Nodup := (List.nodup_cons.mp hnd).2
    simp only [List.foldl_cons]
    rw [ih _ hnd']
    by_cases hxs : x = s
    · subst hxs
      have hmem : x ∈ x :: t := List.mem_cons_self x t
      have hnott : ¬ (x ∈ t ∧ strContains line (quoted x) = true) :=
        fun hc => hx hc.1
      rw [if_neg hnott]
      by_cases hm : strContains line (quoted x) = true
      · rw [if_pos hm, getOcc_appendOcc, if_pos rfl, if_pos ⟨hmem, hm⟩, List.append_nil]
      · rw [if_neg hm, if_neg (fun hc => hm hc.2)]
    · have hiff : (s ∈ t ∧ strContains line (quoted s) = true) ↔
          (s ∈ x :: t ∧ strContains line (quoted s) = true) := by
        constructor
        · exact fun hc => ⟨List.mem_cons_of_mem x hc.1, hc.2⟩
        · intro hc
          rcases List.mem_cons.mp hc.1 with h | h
          · exact absurd h.symm hxs
          · exact ⟨h, hc.2⟩
      by_cases hm : strContains line (quoted x) = true
      · rw [if_pos hm, getOcc_appendOcc, if_neg (fun e => hxs e.symm)]
        simp only [hiff]
      · rw [if_neg hm]
        simp only [hiff]

theorem getOcc_correlateLine (c : List String) (n : Nat) (line : String)
    (m : OccMap) (s : String) (hnd : c.Nodup) :
    getOcc (correlateLine c n line m) s =
      getOcc m s ++ (if s ∈ c ∧ lineMatches s line = true then [n] else []) := by
  unfold correlateLine
  by_cases hpf : lineHasSymbolField line = true
  · rw [if_pos hpf, getOcc_foldl_line line n s c m hnd]
    congr 1
    by_cases hq : strContains line (quoted s) = true
    · simp [lineMatches, hpf, hq]
    · simp [lineMatches, hpf, hq]
  · rw [if_neg hpf]
    have hno : ¬ (s ∈ c ∧ lineMatches s line = true) := by
      intro hc
      have h2 := hc.2
      simp only [lineMatches, Bool.and_eq_true] at h2
      exact hpf h2.1
    rw [if_neg hno, List.append_nil]

theorem getOcc_correlateFrom (c : List String) (s : String) (hnd : c.Nodup) :
    ∀ (lines : List String) (n : Nat) (m : OccMap),
    getOcc (correlateFrom c n lines m) s =
      getOcc m s ++ (if s ∈ c then occLinesFrom s n lines else []) := by
  intro lines
  induction lines with
  | nil => intro n m; simp [correlateFrom, occLinesFrom]
  | cons l t ih =>
    intro n m
    simp only [correlateFrom]
    rw [ih (n + 1) (correlateLine c n l m), getOcc_correlateLine c n l m s hnd]
    by_cases hc : s ∈ c
    · simp only [occLinesFrom, if_pos hc]
      by_cases hm : lineMatches s l = true
      · rw [if_pos ⟨hc, hm⟩, if_pos hm, List.append_assoc]
      · rw [if_neg (fun h => hm h.2), if_neg hm, List.append_nil, List.nil_append]
    · rw [if_neg (fun h => hc h.1), if_neg hc, if_neg hc, List.append_nil, List.append_nil]

theorem getOcc_correlate (c : List String) (lines : List String) (s : String)
    (hnd : c.Nodup) :
    getOcc (correlate c lines) s =
      if s ∈ c then occLinesFrom s 1 lines else [] := by
  unfold correlate
  rw [getOcc_correlateFrom c s hnd lines 1 [], getOcc, List.nil_append]

/-! ## Occurrence-list ordering -/

theorem occLinesFrom_lb (s : String) :
    ∀ (lines : List String) (n x : Nat), x ∈ occLinesFrom s n lines → n ≤ x := by
  intro lines
  induction lines with
  | nil => intro n x hx; simp [occLinesFrom] at hx
  | cons l t ih =>
    intro n x hx
    simp only [occLinesFrom, List.mem_append] at hx
    rcases hx with hx | hx
    · by_cases hm : lineMatches s l = true
      · rw [if_pos hm] at hx
        simp at hx
        omega
      · rw [if_neg hm] at hx
        simp at hx
    · have := ih (n + 1) x hx
      omega

theorem occLinesFrom_chain (s : String) :
    ∀ (lines : List String) (n : Nat),
    List.Chain' (· < ·) (occLinesFrom s n lines) := by
  intro lines
  induction lines with
  | nil => intro n; simp [occLinesFrom]
  | cons l t ih =>
    intro n
    simp only [occLinesFrom]
    by_cases hm : lineMatches s l = true
    · rw [if_pos hm]
      rw [List.singleton_append, List.chain'_cons']
      refine ⟨?_, ih (n + 1)⟩
      intro y hy
      have hym : y ∈ occLinesFrom s (n + 1) t :=
        List.mem_of_mem_head? hy
      have := occLinesFrom_lb s t (n + 1) y hym
      omega
    · rw [if_neg hm, List.nil_append]
      exact ih (n + 1)

/-! ## Zero-match candidates leave no trace -/

theorem foldl_line_skip (line : String) (n : Nat) (s : String)
    (hq : strContains line (quoted s) = false) :
    ∀ (c : List String) (m : OccMap),
    c.foldl
      (fun m' x => if strContains line (quoted x) then appendOcc m' x n else m') m =
    (c.erase s).foldl
      (fun m' x => if strContains line (quoted x) then appendOcc m' x n else m') m := by
  intro c
  induction c with
  | nil => intro m; simp
  | cons x t ih =>
    intro m
    by_cases hxs : x = s
    · subst hxs
      have he : (x :: t).erase x = t := by
        simp [List.erase_cons_head]
      rw [he, List.foldl_cons, if_neg (by rw [hq]; simp)]
    · have hb : (x == s) = false := by rw [beq_eq_false_iff_ne]; exact hxs
      have he : (x :: t).erase s = x :: t.erase s := by
        simp [List.erase_cons, hb]
      rw [he, List.foldl_cons, List.foldl_cons, ih]

theorem correlateLine_skip (c : List String) (n : Nat) (line : String)
    (m : OccMap) (s : String) (hm : lineMatches s line = false) :
    correlateLine c n line m = correlateLine (c.erase s) n line m := by
  unfold correlateLine
  by_cases hpf : lineHasSymbolField line = true
  · rw [if_pos hpf, if_pos hpf]
    have hq : strContains line (quoted s) = false := by
      simp only [lineMatches, hpf, Bool.true_and] at hm
      exact hm
    exact foldl_line_skip line n s hq c m
  · rw [if_neg hpf, if_neg hpf]

theorem correlateFrom_skip (c : List String) (s : String) :
    ∀ (lines : List String) (n : Nat) (m : OccMap),
    (∀ l ∈ lines, lineMatches s l = false) →
    correlateFrom c n lines m = correlateFrom (c.erase s) n lines m := by
  intro lines
  induction lines with
  | nil => intro n m _; simp [correlateFrom]
  | cons l t ih =>
    intro n m hall
    simp only [correlateFrom]
    rw [correlateLine_skip c n l m s (hall l (List.mem_cons_self l t))]
    exact ih (n + 1) (correlateLine (c.erase s) n l m)
      (fun l' hl' => hall l' (List.mem_cons_of_mem l hl'))

theorem hasKey_correlateLine_skip (c : List String) (n : Nat) (line : String)
    (m : OccMap) (s : String) (hm : lineMatches s line = false) :
    hasKey (correlateLine c n line m) s = hasKey m s := by
  unfold correlateLine
  by_cases hpf : lineHasSymbolField line = true
  · rw [if_pos hpf]
    have hq : strContains line (quoted s) = false := by
      simp only [lineMatches, hpf, Bool.true_and] at hm
      exact hm
    induction c generalizing m with
    | nil => simp
    | cons x t ih =>
      rw [List.foldl_cons]
      by_cases hx : strContains line (quoted x) = true
      · rw [if_pos hx, ih (appendOcc m x n)]
        rw [hasKey_appendOcc]
        have hxs : (x == s) = false := by
          rw [beq_eq_false_iff_ne]
          intro e
          rw [e] at hx
          rw [hx] at hq
          exact absurd hq (by simp)
        rw [hxs, Bool.or_false]
      · rw [if_neg hx, ih m]
  · rw [if_neg hpf]

theorem hasKey_correlateFrom_skip (c : List String) (s : String) :
    ∀ (lines : List String) (n : Nat) (m : OccMap),
    (∀ l ∈ lines, lineMatches s l = false) →
    hasKey (correlateFrom c n lines m) s = hasKey m s := by
  intro lines
  induction lines with
  | nil => intro n m _; simp [correlateFrom]
  | cons l t ih =>
    intro n m hall
    simp only [correlateFrom]
    rw [ih (n + 1) _ (fun l' hl' => hall l' (List.mem_cons_of_mem l hl'))]
    exact hasKey_correlateLine_skip c n l m s (hall l (List.mem_cons_self l t))

theorem occLinesFrom_nil_matches (s : String) :
    ∀ (lines : List String) (n : Nat), occLinesFrom s n lines = [] →
    ∀ l ∈ lines, lineMatches s l = false := by
  intro lines
  induction lines with
  | nil => intro n _ l hl; simp at hl
  | cons l t ih =>
    intro n h l' hl'
    simp only [occLinesFrom] at h
    by_cases hm : lineMatches s l = true
    · rw [if_pos hm] at h
      simp at h
    · rcases List.mem_cons.mp hl' with e | e
      · subst e
        exact Bool.eq_false_iff.mpr (fun e' => hm e')
      · rw [if_neg hm, List.nil_append] at h
        exact ih (n + 1) h l' e

/-! ## Selector invariants -/

theorem foldlM_except_inv {α β ε : Type} (f : α → β → Except ε α) (Q : α → Prop)
    (hf : ∀ acc x out, f acc x = .ok out → Q acc → Q out) :
    ∀ (l : List β) (acc out : α), List.foldlM f acc l = .ok out → Q acc → Q out := by
  intro l
  induction l with
  | nil =>
    intro acc out h hq
    have h' : acc = out := by simpa [List.foldlM, pure, Except.pure] using h
    rw [← h']; exact hq
  | cons x t ih =>
    intro acc out h hq
    simp only [List.foldlM] at h
    cases hfx : f acc x with
    | error e =>
      rw [hfx] at h
      simp only [Bind.bind, Except.bind] at h
      exact absurd h (by simp)
    | ok acc' =>
      rw [hfx] at h
      simp only [Bind.bind, Except.bind] at h
      exact ih acc' out h (hf acc x acc' hfx hq)

theorem mem_setInsert (acc : List String) (s' s : String)
    (h : s ∈ setInsert acc s') : s ∈ acc ∨ s = s' := by
  unfold setInsert at h
  by_cases hc : acc.contains s'
  · rw [if_pos hc] at h; exact Or.inl h
  · rw [if_neg hc] at h
    rcases List.mem_append.mp h with h | h
    · exact Or.inl h
    · simp at h; exact Or.inr h

theorem setInsert_nodup (acc : List String) (s : String) (h : acc.Nodup) :
    (setInsert acc s).Nodup := by
  unfold setInsert
  by_cases hc : acc.contains s
  · rw [if_pos hc]; exact h
  · rw [if_neg hc]
    have hs : s ∉ acc := by
      intro hm
      exact hc (List.elem_eq_true_of_mem hm)
    exact List.Nodup.append h (List.nodup_singleton s)
      (fun a ha hb => hs (by simp at hb; rw [← hb]; exact ha))

theorem passFilter_some (patterns : List String) (fo : Bool) (v : Json) (s : String)
    (h : passFilter patterns fo v = .ok (some s)) :
    v = Json.jstr s ∧ filterPred patterns fo s := by
  cases patterns with
  | nil => simp [passFilter] at h
  | cons p ps =>
    cases v with
    | jstr s' =>
      simp only [passFilter] at h
      by_cases h1 : (patternMatches (p :: ps) s' && strContains s' "#") = true
      · rw [if_pos h1] at h
        by_cases h2 : (strStartsWith s' "local " || strContains s' "tests/" ||
            strContains s' "/core ") = true
        · rw [if_pos h2] at h; simp at h
        · rw [if_neg h2] at h
          by_cases h3 : (fo && !strEndsWith s' "().") = true
          · rw [if_pos h3] at h; simp at h
          · rw [if_neg h3] at h
            simp only [Except.ok.injEq, Option.some.injEq] at h
            subst h
            refine ⟨rfl, ?_⟩
            simp only [Bool.and_eq_true] at h1
            simp only [Bool.or_eq_true, not_or, Bool.not_eq_true] at h2
            refine ⟨h1.1, h1.2, h2.1.1, h2.1.2, h2.2, ?_⟩
            intro hfo
            cases he : strEndsWith s' "()." with
            | true => rfl
            | false =>
              exact absurd (by rw [hfo, he]; rfl) h3
      · rw [if_neg h1] at h
        simp at h
    | jnull => simp [passFilter] at h
    | jbool b => simp [passFilter] at h
    | jnum n => simp [passFilter] at h
    | jarr es => simp [passFilter] at h
    | jobj fs => simp [passFilter] at h

theorem passFilter_nil_pattern (fo : Bool) (v : Json) (o : Option String)
    (h : passFilter [] fo v = .ok o) : o = none := by
  simp [passFilter] at h
  exact h.symm

theorem selectSym_pres (patterns : List String) (fo : Bool)
    (acc : List String) (j : Json) (out : List String)
    (h : selectSym patterns fo acc j = .ok out)
    (hq : (∀ s ∈ acc, filterPred patterns fo s) ∧ acc.Nodup ∧
      (patterns = [] → acc = [])) :
    (∀ s ∈ out, filterPred patterns fo s) ∧ out.Nodup ∧
      (patterns = [] → out = []) := by
  cases j with
  | jobj sfs =>
    simp only [selectSym] at h
    cases hp : passFilter patterns fo (dictGet sfs "symbol" (Json.jstr "")) with
    | error e =>
      rw [hp] at h; simp at h
    | ok o =>
      rw [hp] at h
      cases o with
      | none =>
        simp only [Except.ok.injEq] at h
        rw [← h]; exact hq
      | some s' =>
        simp only [Except.ok.injEq] at h
        rw [← h]
        have hf := passFilter_some patterns fo _ s' hp
        refine ⟨?_, setInsert_nodup acc s' hq.2.1, ?_⟩
        · intro s hs
          rcases mem_setInsert acc s' s hs with hm | hm
          · exact hq.1 s hm
          · rw [hm]; exact hf.2
        · intro hpat
          rw [hpat] at hp
          exact absurd (passFilter_nil_pattern fo _ _ hp) (by simp)
  | jnull => simp [selectSym] at h
  | jbool b => simp [selectSym] at h
  | jnum n => simp [selectSym] at h
  | jstr s => simp [selectSym] at h
  | jarr es => simp [selectSym] at h

theorem selectDoc_pres (patterns : List String) (fo : Bool)
    (acc : List String) (j : Json) (out : List String)
    (h : selectDoc patterns fo acc j = .ok out)
    (hq : (∀ s ∈ acc, filterPred patterns fo s) ∧ acc.Nodup ∧
      (patterns = [] → acc = [])) :
    (∀ s ∈ out, filterPred patterns fo s) ∧ out.Nodup ∧
      (patterns = [] → out = []) := by
  cases j with
  | jobj dfs =>
    simp only [selectDoc] at h
    cases hp : pyIter (dictGet dfs "symbols" (Json.jarr [])) with
    | error e => rw [hp] at h; simp at h
    | ok syms =>
      rw [hp] at h
      exact foldlM_except_inv (selectSym patterns fo) _
        (fun a x o ho hqa => selectSym_pres patterns fo a x o ho hqa)
        syms acc out h hq
  | jnull => simp [selectDoc] at h
  | jbool b => simp [selectDoc] at h
  | jnum n => simp [selectDoc] at h
  | jstr s => simp [selectDoc] at h
  | jarr es => simp [selectDoc] at h

theorem selector_sound (patterns : List String) (fo : Bool) (docsVal : Json)
    (cands : List String) (h : selector patterns fo docsVal = .ok cands) :
    (∀ s ∈ cands, filterPred patterns fo s) ∧ cands.Nodup ∧
      (patterns = [] → cands = []) := by
  simp only [selector] at h
  cases hp : pyIter docsVal with
  | error e => rw [hp] at h; simp at h
  | ok docs =>
    rw [hp] at h
    exact foldlM_except_inv (selectDoc patterns fo) _
      (fun a x o ho hqa => selectDoc_pres patterns fo a x o ho hqa)
      docs [] cands h ⟨by simp, List.nodup_nil, fun _ => rfl⟩

/-! ## Inversion of the whole function on success -/

theorem extract_ok_some (parseJson : String → Except String Json)
    (file : FS) (path : String) (patternsArg : Option (List String))
    (fo : Bool) (m : OccMap)
    (h : extract_impl_symbols parseJson file path patternsArg fo =
      .ok (some m, none)) :
    ∃ text cands, file = FS.readable text ∧
      m = correlate cands (toLines text) ∧ cands.Nodup ∧
      (∀ s ∈ cands, filterPred (patternsArg.getD defaultPatterns) fo s) ∧
      (patternsArg.getD defaultPatterns = [] → cands = []) := by
  cases file with
  | absent => simp [extract_impl_symbols] at h
  | unreadable text =>
    simp only [extract_impl_symbols] at h
    split at h <;> simp at h
  | readable text =>
    simp only [extract_impl_symbols] at h
    split at h
    · simp at h
    · split at h
      · simp at h
      · split at h
        · simp at h
        · split at h
          · simp at h
          · split at h
            · split at h
              · simp at h
              · split at h
                · simp at h
                · rename_i cands hsel
                  simp only [Except.ok.injEq, Prod.mk.injEq, Option.some.injEq] at h
                  have hsound := selector_sound _ fo _ cands hsel
                  exact ⟨text, cands, rfl, h.1.symm, hsound.2.1, hsound.1, hsound.2.2⟩
            · simp at h

/-! ## Error messages are pairwise distinguishable -/

theorem getq_append (l r : List Char) (k : Nat) (c : Char)
    (h : l.get? k = some c) : (l ++ r).get? k = some c := by
  have hlt : k < l.length := by
    by_contra hk
    rw [List.get?_eq_none.mpr (Nat.le_of_not_lt hk)] at h
    exact Option.noConfusion h
  rw [List.get?_append hlt]
  exact h

theorem ansiMsg_get14 (p : String) : (ansiMsg p).data.get? 14 = some 'A' := by
  unfold ansiMsg
  rw [data_append, data_append]
  exact getq_append _ _ _ _ (getq_append _ _ _ _ (by decide))

theorem goStructMsg_get14 (p : String) :
    (goStructMsg p).data.get? 14 = some 'G' := by
  unfold goStructMsg
  rw [data_append, data_append]
  exact getq_append _ _ _ _ (getq_append _ _ _ _ (by decide))

theorem emptyMsg_get5 (p : String) : (emptyMsg p).data.get? 5 = some 'i' := by
  unfold emptyMsg
  rw [data_append]
  exact getq_append _ _ _ _ (by decide)

theorem ansiMsg_get5 (p : String) : (ansiMsg p).data.get? 5 = some 'c' := by
  unfold ansiMsg
  rw [data_append, data_append]
  exact getq_append _ _ _ _ (getq_append _ _ _ _ (by decide))

theorem ansiMsg_get0 (p : String) : (ansiMsg p).data.get? 0 = some 'F' := by
  unfold ansiMsg
  rw [data_append, data_append]
  exact getq_append _ _ _ _ (getq_append _ _ _ _ (by decide))

theorem invalidJsonMsg_get0 (p e : String) :
    (invalidJsonMsg p e).data.get? 0 = some 'I' := by
  unfold invalidJsonMsg
  rw [data_append, data_append, data_append]
  exact getq_append _ _ _ _ (getq_append _ _ _ _ (getq_append _ _ _ _ (by decide)))

theorem missingDocumentsMsg_get0 (p : String) :
    (missingDocumentsMsg p).data.get? 0 = some 'M' := by
  unfold missingDocumentsMsg
  rw [data_append]
  exact getq_append _ _ _ _ (by decide)

theorem wrongTypeMsg_get0 (t p : String) :
    (wrongTypeMsg t p).data.get? 0 = some 'E' := by
  unfold wrongTypeMsg
  rw [data_append, data_append, data_append]
  exact getq_append _ _ _ _ (getq_append _ _ _ _ (getq_append _ _ _ _ (by decide)))

theorem emptyMsg_ne_ansiMsg (p q : String) : emptyMsg p ≠ ansiMsg q :=
  str_ne_of_data_get _ _ 5
    (by rw [emptyMsg_get5, ansiMsg_get5]; decide)

theorem goStructMsg_ne_ansiMsg (p q : String) : goStructMsg p ≠ ansiMsg q :=
  str_ne_of_data_get _ _ 14
    (by rw [goStructMsg_get14, ansiMsg_get14]; decide)

theorem invalidJsonMsg_ne_ansiMsg (p e q : String) :
    invalidJsonMsg p e ≠ ansiMsg q :=
  str_ne_of_data_get _ _ 0
    (by rw [invalidJsonMsg_get0, ansiMsg_get0]; decide)

theorem missingDocumentsMsg_ne_ansiMsg (p q : String) :
    missingDocumentsMsg p ≠ ansiMsg q :=
  str_ne_of_data_get _ _ 0
    (by rw [missingDocumentsMsg_get0, ansiMsg_get0]; decide)

theorem wrongTypeMsg_ne_ansiMsg (t p q : String) :
    wrongTypeMsg t p ≠ ansiMsg q :=
  str_ne_of_data_get _ _ 0
    (by rw [wrongTypeMsg_get0, ansiMsg_get0]; decide)

/-! ## Remaining supporting lemmas -/

theorem correlateLine_nil_cands (n : Nat) (l : String) (m : OccMap) :
    correlateLine [] n l m = m := by
  unfold correlateLine
  split <;> rfl

theorem correlateFrom_nil_cands :
    ∀ (lines : List String) (n : Nat) (m : OccMap),
    correlateFrom [] n lines m = m := by
  intro lines
  induction lines with
  | nil => intro n m; rfl
  | cons l t ih =>
    intro n m
    simp only [correlateFrom, correlateLine_nil_cands]
    exact ih (n + 1) m

theorem extract_ok_shape (parseJson : String → Except String Json)
    (file : FS) (path : String) (patternsArg : Option (List String))
    (fo : Bool) (r : Option OccMap × Option String)
    (h : extract_impl_symbols parseJson file path patternsArg fo = .ok r) :
    (∃ m, r = (some m, none)) ∨ (∃ msg, r = (none, some msg)) := by
  cases file with
  | absent =>
    simp only [extract_impl_symbols, Except.ok.injEq] at h
    exact Or.inr ⟨_, h.symm⟩
  | unreadable text =>
    simp only [extract_impl_symbols] at h
    split at h <;>
      simp only [Except.ok.injEq] at h <;>
      exact Or.inr ⟨_, h.symm⟩
  | readable text =>
    simp only [extract_impl_symbols] at h
    split at h
    · simp only [Except.ok.injEq] at h
      exact Or.inr ⟨_, h.symm⟩
    · split at h
      · simp only [Except.ok.injEq] at h
        exact Or.inr ⟨_, h.symm⟩
      · split at h
        · simp only [Except.ok.injEq] at h
          exact Or.inr ⟨_, h.symm⟩
        · split at h
          · simp only [Except.ok.injEq] at h
            exact Or.inr ⟨_, h.symm⟩
          · split at h
            · split at h
              · simp only [Except.ok.injEq] at h
                exact Or.inr ⟨_, h.symm⟩
              · split at h
                · exact absurd h (by simp)
                · simp only [Except.ok.injEq] at h
                  exact Or.inl ⟨_, h.symm⟩
            · simp only [Except.ok.injEq] at h
              exact Or.inr ⟨_, h.symm⟩

theorem processFiles_spec (parseJson : String → Except String Json)
    (world : String → FS) (patterns : List String) (fo : Bool) :
    ∀ (files : List String) (c₀ : Nat) (rs₀ : List (String × Option String))
      (code : Nat) (reports : List (String × Option String)),
    processFiles parseJson world patterns fo (c₀, rs₀) files = .ok (code, reports) →
    ∃ newR, reports = rs₀ ++ newR ∧ newR.map Prod.fst = files ∧
      (code = 1 ↔ (c₀ = 1 ∨ ∃ pr ∈ newR, (Prod.snd pr).isSome = true)) ∧
      (code = c₀ ∨ code = 1) := by
  intro files
  induction files with
  | nil =>
    intro c₀ rs₀ code reports h
    simp only [processFiles, Except.ok.injEq, Prod.mk.injEq] at h
    refine ⟨[], by simp [← h.2], by simp, ?_, Or.inl h.1.symm⟩
    rw [← h.1]
    simp
  | cons f rest ih =>
    intro c₀ rs₀ code reports h
    simp only [processFiles] at h
    cases hx : extract_impl_symbols parseJson (world f) f (some patterns) fo with
    | error e => rw [hx] at h; exact absurd h (by simp)
    | ok pr =>
      rw [hx] at h
      obtain ⟨mo, msgo⟩ := pr
      cases msgo with
      | some msg =>
        obtain ⟨newR, h1, h2, h3, h4⟩ :=
          ih 1 (rs₀ ++ [(f, some msg)]) code reports h
        refine ⟨(f, some msg) :: newR, ?_, ?_, ?_, ?_⟩
        · rw [h1, List.append_assoc]; rfl
        · simp [h2]
        · constructor
          · intro _
            exact Or.inr ⟨(f, some msg), List.mem_cons_self _ _, rfl⟩
          · intro _
            exact h3.mpr (Or.inl rfl)
        · rcases h4 with h4 | h4
          · exact Or.inr h4
          · exact Or.inr h4
      | none =>
        obtain ⟨newR, h1, h2, h3, h4⟩ :=
          ih c₀ (rs₀ ++ [(f, none)]) code reports h
        refine ⟨(f, none) :: newR, ?_, ?_, ?_, ?_⟩
        · rw [h1, List.append_assoc]; rfl
        · simp [h2]
        · rw [h3]
          constructor
          · intro hor
            rcases hor with hc | ⟨pr, hpr, hs⟩
            · exact Or.inl hc
            · exact Or.inr ⟨pr, List.mem_cons_of_mem _ hpr, hs⟩
          · intro hor
            rcases hor with hc | ⟨pr, hpr, hs⟩
            · exact Or.inl hc
            · rcases List.mem_cons.mp hpr with e | e
              · rw [e] at hs; simp at hs
              · exact Or.inr ⟨pr, e, hs⟩
        · exact h4

/-! ## Claim theorems -/

/-- C1 (counterexample): matching is not case-insensitive in the pattern.
The same input with the pattern written `neg` yields an occurrence, while
the pattern written `NEG` selects nothing, because line 83 lowercases the
identifier but uses the pattern verbatim. -/
theorem c1_pattern_case_counterexample :
    extract_impl_symbols (constParse (sampleDoc ["foo#neg()."]))
      (FS.readable "\"symbol\": \"foo#neg().\"") "f" (some ["neg"]) true =
      .ok (some [("foo#neg().", [1])], none) ∧
    extract_impl_symbols (constParse (sampleDoc ["foo#neg()."]))
      (FS.readable "\"symbol\": \"foo#neg().\"") "f" (some ["NEG"]) true =
      .ok (some [], none) := by
  refine ⟨by decide, by decide⟩

/-- C1 (amended): pattern matching is case-insensitive in the identifier
only — whether an identifier matches depends only on its lowercased form,
while the letter case of the pattern is significant. -/
theorem c1_identifier_case_insensitive (patterns : List String)
    (s₁ s₂ : String) (h : strLower s₁ = strLower s₂) :
    patternMatches patterns s₁ = patternMatches patterns s₂ := by
  unfold patternMatches
  rw [h]

/-- C1 witness: the amended theorem applied to two case-variants of one
identifier. -/
theorem c1_identifier_case_insensitive_witness :
    patternMatches ["neg"] "A#NEG()." = patternMatches ["neg"] "a#neg()." :=
  c1_identifier_case_insensitive ["neg"] "A#NEG()." "a#neg()." rfl

/-- C2 (counterexample): an identifier in the Candidate Set with zero
raw-text matches is not surfaced distinctly.  The selector produces the
candidate `foo` shown below, yet the run returns the plain success pair
with an empty Occurrence Map — bit-for-bit the same result as a run whose
Candidate Set is empty, with no logic-error class anywhere in the result
type. -/
theorem c2_zero_match_silent_counterexample :
    selector ["neg", "mul"] true
      (Json.jarr [Json.jobj [("symbols",
        Json.jarr [Json.jobj [("symbol", Json.jstr "a#neg().")]])]]) =
      .ok ["a#neg()."] ∧
    extract_impl_symbols (constParse (sampleDoc ["a#neg()."]))
      (FS.readable "x") "f" none true = .ok (some [], none) ∧
    extract_impl_symbols (constParse (sampleDoc []))
      (FS.readable "x") "f" none true = .ok (some [], none) := by
  refine ⟨by decide, by decide, by decide⟩

/-- C2 (amended): a candidate with zero raw-text line matches is silently
omitted: the Occurrence Map never acquires it as a key, and the whole map
is identical to the one produced when the identifier is removed from the
Candidate Set altogether. -/
theorem c2_zero_match_omitted (cands : List String) (lines : List String)
    (s : String) (hz : occLinesFrom s 1 lines = []) :
    correlate cands lines = correlate (cands.erase s) lines ∧
    hasKey (correlate cands lines) s = false := by
  have hall : ∀ l ∈ lines, lineMatches s l = false :=
    occLinesFrom_nil_matches s lines 1 hz
  constructor
  · exact correlateFrom_skip cands s lines 1 [] hall
  · rw [correlate, hasKey_correlateFrom_skip cands s lines 1 [] hall]
    rfl

/-- C2 witness: the amended theorem applied to a candidate set holding
one identifier that matches no raw line. -/
theorem c2_zero_match_omitted_witness :
    correlate ["a#neg()."] ["x"] = correlate (["a#neg()."].erase "a#neg().") ["x"] ∧
    hasKey (correlate ["a#neg()."] ["x"]) "a#neg()." = false :=
  c2_zero_match_omitted ["a#neg()."] ["x"] "a#neg()." rfl

/-- C3: the occurrence list of an identifier is classified as a collision
exactly when it records more than two positions, is unique at two or
fewer, the reported extra evidence is every position beyond the first,
and the classification is monotonic in the occurrence count. -/
theorem c3_collision_threshold (l : List Nat) :
    (isCollision l = true ↔ 2 < l.length) ∧
    (isCollision l = false ↔ l.length ≤ 2) ∧
    collisionEvidence l = l.drop 1 ∧
    (∀ l' : List Nat, l.length ≤ l'.length →
      isCollision l = true → isCollision l' = true) := by
  refine ⟨?_, ?_, rfl, ?_⟩
  · simp [isCollision, classifyCount]
  · simp [isCollision, classifyCount]
  · intro l' hle h
    simp [isCollision, classifyCount] at h ⊢
    omega

/-- C3 witness: the monotonicity component applied to concrete lists of
lengths three and four. -/
theorem c3_collision_threshold_witness :
    isCollision [3, 9, 27, 81] = true :=
  (c3_collision_threshold [1, 5, 7]).2.2.2 [3, 9, 27, 81] (by decide)
    ((c3_collision_threshold [1, 5, 7]).1.mpr (by decide))

/-- C4: every identifier the Symbol Selector places in the Candidate Set
satisfies the full filter conjunction — a (case-insensitive on the
identifier) pattern match, the member-scope marker, none of the three
exclusions, and the function-suffix rule when functions_only is set. -/
theorem c4_candidate_filter_sound (patterns : List String) (fo : Bool)
    (docsVal : Json) (cands : List String)
    (h : selector patterns fo docsVal = .ok cands) :
    ∀ s ∈ cands, patternMatches patterns s = true ∧
      strContains s "#" = true ∧ strStartsWith s "local " = false ∧
      strContains s "tests/" = false ∧ strContains s "/core " = false ∧
      (fo = true → strEndsWith s "()." = true) :=
  (selector_sound patterns fo docsVal cands h).1

/-- C4 witness: the theorem applied to a concrete selector run. -/
theorem c4_candidate_filter_sound_witness :
    patternMatches ["neg", "mul"] "a#neg()." = true ∧
      strContains "a#neg()." "#" = true ∧
      strStartsWith "a#neg()." "local " = false ∧
      strContains "a#neg()." "tests/" = false ∧
      strContains "a#neg()." "/core " = false ∧
      (true = true → strEndsWith "a#neg()." "()." = true) :=
  c4_candidate_filter_sound ["neg", "mul"] true
    (Json.jarr [Json.jobj [("symbols",
      Json.jarr [Json.jobj [("symbol", Json.jstr "a#neg().")]])]])
    ["a#neg()."] rfl "a#neg()." (by simp)

/-- C5: on every successful extraction, every line list recorded in the
Occurrence Map is strictly ascending and 1-based. -/
theorem c5_occurrence_lines_ascending (parseJson : String → Except String Json)
    (file : FS) (path : String) (pats : Option (List String)) (fo : Bool)
    (m : OccMap)
    (h : extract_impl_symbols parseJson file path pats fo = .ok (some m, none)) :
    ∀ s, List.Chain' (· < ·) (getOcc m s) ∧ ∀ x ∈ getOcc m s, 1 ≤ x := by
  obtain ⟨text, cands, _, hm, hnd, _, _⟩ :=
    extract_ok_some parseJson file path pats fo m h
  intro s
  rw [hm, getOcc_correlate cands (toLines text) s hnd]
  by_cases hc : s ∈ cands
  · rw [if_pos hc]
    exact ⟨occLinesFrom_chain s (toLines text) 1,
      fun x hx => occLinesFrom_lb s (toLines text) 1 x hx⟩
  · rw [if_neg hc]
    exact ⟨by simp, by simp⟩

/-- C5 witness: the theorem applied to a run whose single candidate
occurs on line 2. -/
theorem c5_occurrence_lines_ascending_witness :
    List.Chain' (· < ·) (getOcc [("a#neg().", [2])] "a#neg().") ∧
    ∀ x ∈ getOcc [("a#neg().", [2])] "a#neg().", 1 ≤ x :=
  c5_occurrence_lines_ascending (constParse (sampleDoc ["a#neg()."]))
    (FS.readable "x\n \"symbol\": \"a#neg().\"\n") "f" none true
    [("a#neg().", [2])] (by decide) "a#neg()."

/-- C6 (counterexample): a file whose content contains an ANSI escape
sequence — but only after the first 100 characters — does not fail with
the AnsiColor error; it extracts normally, because lines 42-46 inspect
only `f.read(100)`. -/
theorem c6_ansi_beyond_first_bytes_counterexample :
    strContains (String.mk (List.replicate 100 'a') ++ "\x1b[31m") "\x1b[" = true ∧
    extract_impl_symbols (constParse (sampleDoc []))
      (FS.readable (String.mk (List.replicate 100 'a') ++ "\x1b[31m"))
      "f" none true = .ok (some [], none) := by
  refine ⟨by decide, by decide⟩

/-- C6 (amended): for a readable file, extraction fails with the
AnsiColor error exactly when the file is non-empty and its first 100
characters contain the escape-sequence marker or the reset-sequence
fragment, and this error is produced in no other case. -/
theorem c6_ansi_first_bytes_iff (parseJson : String → Except String Json)
    (text path : String) (pats : Option (List String)) (fo : Bool) :
    extract_impl_symbols parseJson (FS.readable text) path pats fo =
      .ok (none, some (ansiMsg path)) ↔
    (text.length ≠ 0 ∧
      (strContains (strTake text 100) "\x1b[" ||
        strContains (strTake text 100) "[0m") = true) := by
  constructor
  · intro h
    simp only [extract_impl_symbols] at h
    split at h
    · simp only [Except.ok.injEq, Prod.mk.injEq, Option.some.injEq, true_and] at h
      exact absurd h (emptyMsg_ne_ansiMsg path path)
    · rename_i h0
      split at h
      · rename_i hc
        refine ⟨fun he => h0 (by rw [he]; rfl), hc⟩
      · exfalso
        split at h
        · simp only [Except.ok.injEq, Prod.mk.injEq, Option.some.injEq, true_and] at h
          exact goStructMsg_ne_ansiMsg path path h
        · split at h
          · simp only [Except.ok.injEq, Prod.mk.injEq, Option.some.injEq, true_and] at h
            exact invalidJsonMsg_ne_ansiMsg path _ path h
          · split at h
            · split at h
              · simp only [Except.ok.injEq, Prod.mk.injEq, Option.some.injEq, true_and] at h
                exact missingDocumentsMsg_ne_ansiMsg path path h
              · split at h
                · exact absurd h (by simp)
                · simp at h
            · simp only [Except.ok.injEq, Prod.mk.injEq, Option.some.injEq, true_and] at h
              exact wrongTypeMsg_ne_ansiMsg _ path path h
  · rintro ⟨h0, hc⟩
    have h0' : ¬ ((text.length == 0) = true) := by
      simp only [beq_iff_eq]
      exact h0
    simp only [extract_impl_symbols]
    rw [if_neg h0', if_pos hc]

/-- C7: in a multi-file run of main, every input file is reported in
order (an earlier failure does not abort later files), and the exit code
is 1 exactly when some file failed, 0 exactly when none did. -/
theorem c7_per_file_isolation_exit_code
    (parseJson : String → Except String Json) (world : String → FS)
    (cliPatterns : Option (List String)) (allSymbols : Bool)
    (files : List String) (code : Nat)
    (reports : List (String × Option String))
    (h : mainRun parseJson world cliPatterns allSymbols files =
      .ok (code, reports)) :
    reports.map Prod.fst = files ∧
    (code = 1 ↔ ∃ pr ∈ reports, (Prod.snd pr).isSome = true) ∧
    (code = 0 ↔ ∀ pr ∈ reports, Prod.snd pr = none) ∧
    (code = 0 ∨ code = 1) := by
  obtain ⟨newR, h1, h2, h3, h4⟩ :=
    processFiles_spec parseJson world (resolvePatterns cliPatterns)
      (!allSymbols) files 0 [] code reports h
  have h1' : reports = newR := by simpa using h1
  subst h1'
  refine ⟨h2, ?_, ?_, ?_⟩
  · rw [h3]
    constructor
    · intro hor
      rcases hor with hc | he
      · exact absurd hc (by decide)
      · exact he
    · exact fun he => Or.inr he
  · constructor
    · intro hz pr hpr
      by_contra hne
      have hsome : (Prod.snd pr).isSome = true := by
        cases hpr2 : Prod.snd pr with
        | none => exact absurd hpr2 hne
        | some v => rfl
      have hone : code = 1 := h3.mpr (Or.inr ⟨pr, hpr, hsome⟩)
      rw [hone] at hz
      exact absurd hz (by decide)
    · intro hall
      rcases h4 with h4 | h4
      · exact h4
      · exfalso
        rcases h3.mp h4 with hc | ⟨pr, hpr, hs⟩
        · exact absurd hc (by decide)
        · rw [hall pr hpr] at hs
          simp at hs
  · exact h4

/-- C7 witness: the theorem applied to a two-file run whose first file is
missing and whose second file succeeds. -/
theorem c7_per_file_isolation_exit_code_witness :
    ([("f1", some (notFoundMsg "f1")), ("f2", (none : Option String))].map
      Prod.fst = ["f1", "f2"]) ∧
    ((1 : Nat) = 1 ↔ ∃ pr ∈ [("f1", some (notFoundMsg "f1")),
      ("f2", (none : Option String))], (Prod.snd pr).isSome = true) ∧
    ((1 : Nat) = 0 ↔ ∀ pr ∈ [("f1", some (notFoundMsg "f1")),
      ("f2", (none : Option String))], Prod.snd pr = none) ∧
    ((1 : Nat) = 0 ∨ (1 : Nat) = 1) :=
  c7_per_file_isolation_exit_code (constParse (sampleDoc []))
    (fun p => if p == "f1" then FS.absent else FS.readable "x")
    none false ["f1", "f2"] 1
    [("f1", some (notFoundMsg "f1")), ("f2", none)] (by decide)

/-- C8: a rerun on the same immutable input is literally the same
computation, and the Occurrence Map does not depend on the enumeration
order of the Candidate Set (the only run-to-run nondeterminism in the
script, Python set iteration): any two duplicate-free enumerations with
the same members produce the same mapping. -/
theorem c8_rerun_deterministic (parseJson : String → Except String Json)
    (file : FS) (path : String) (pats : Option (List String)) (fo : Bool) :
    extract_impl_symbols parseJson file path pats fo =
      extract_impl_symbols parseJson file path pats fo ∧
    ∀ (lines c₁ c₂ : List String), c₁.Nodup → c₂.Nodup →
      (∀ s, s ∈ c₁ ↔ s ∈ c₂) →
      ∀ s, getOcc (correlate c₁ lines) s = getOcc (correlate c₂ lines) s := by
  refine ⟨rfl, ?_⟩
  intro lines c₁ c₂ h₁ h₂ hiff s
  rw [getOcc_correlate c₁ lines s h₁, getOcc_correlate c₂ lines s h₂]
  by_cases hm : s ∈ c₁
  · rw [if_pos hm, if_pos ((hiff s).mp hm)]
  · rw [if_neg hm, if_neg (fun hm2 => hm ((hiff s).mpr hm2))]

/-- C8 witness: two opposite enumerations of a two-candidate set give the
same occurrence list. -/
theorem c8_rerun_deterministic_witness :
    getOcc (correlate ["a", "b"] ["\"symbol\": \"a\""]) "a" =
      getOcc (correlate ["b", "a"] ["\"symbol\": \"a\""]) "a" :=
  (c8_rerun_deterministic (constParse (sampleDoc [])) FS.absent "f" none
    true).2 ["\"symbol\": \"a\""] ["a", "b"] ["b", "a"] (by decide)
    (by decide) (fun s => by constructor <;> (intro hm; simp at hm ⊢; tauto))
    "a"

/-- C9 (counterexample): the function can propagate an exception — valid
JSON whose documents key holds a number makes the iteration on line 79 raise
an uncaught TypeError. -/
theorem c9_exception_counterexample :
    extract_impl_symbols (constParse (Json.jobj [("documents", Json.jnum 5)]))
      (FS.readable "x") "f" none true = .error PyExn.typeError := by
  decide

/-- C9 (amended): whenever the function does return a pair, exactly one
component is None: either a successful occurrence map with no error, or
no map with an error message. -/
theorem c9_exactly_one_none_on_return
    (parseJson : String → Except String Json) (file : FS) (path : String)
    (patternsArg : Option (List String)) (fo : Bool)
    (r : Option OccMap × Option String)
    (h : extract_impl_symbols parseJson file path patternsArg fo = .ok r) :
    (∃ m, r = (some m, none)) ∨ (∃ msg, r = (none, some msg)) :=
  extract_ok_shape parseJson file path patternsArg fo r h

/-- C9 witness: the amended theorem applied to a successful run. -/
theorem c9_exactly_one_none_on_return_witness :
    (∃ m, ((some [] : Option OccMap), (none : Option String)) = (some m, none)) ∨
    (∃ msg, ((some [] : Option OccMap), (none : Option String)) = (none, some msg)) :=
  c9_exactly_one_none_on_return (constParse (sampleDoc [])) (FS.readable "x")
    "f" none true (some [], none) (by decide)

/-- C10: an explicitly empty pattern list yields an empty Candidate Set
and hence an empty Occurrence Map on every successful run, while the
defaults neg and mul are substituted exactly when the patterns argument
is None. -/
theorem c10_empty_patterns_empty_result :
    (∀ (parseJson : String → Except String Json) (file : FS) (path : String)
      (fo : Bool) (m : OccMap),
      extract_impl_symbols parseJson file path (some []) fo =
        .ok (some m, none) → m = []) ∧
    (∀ (parseJson : String → Except String Json) (file : FS) (path : String)
      (fo : Bool),
      extract_impl_symbols parseJson file path none fo =
        extract_impl_symbols parseJson file path (some defaultPatterns) fo) := by
  constructor
  · intro parseJson file path fo m h
    obtain ⟨text, cands, _, hm, _, _, hnil⟩ :=
      extract_ok_some parseJson file path (some []) fo m h
    have hc : cands = [] := hnil rfl
    rw [hm, hc]
    exact correlateFrom_nil_cands (toLines text) 1 []
  · intro parseJson file path fo
    rfl

/-- C10 witness: the first component applied to a run over an input that
would match the default patterns, with the pattern list explicitly
empty. -/
theorem c10_empty_patterns_empty_result_witness : ([] : OccMap) = [] :=
  c10_empty_patterns_empty_result.1 (constParse (sampleDoc ["a#neg()."]))
    (FS.readable "x") "f" true [] (by decide)
